import Mathlib

set_option linter.unusedVariables false

/-!
Verification development for the websocket bridge
`src/python_bridge/chatboxAgenticBridge.py`.

The program is a relay between a "dashboard" peer and an "agent" peer.
Shared process-wide state (lines 6-8 of the source):
  `message = "global"`, `event = asyncio.Event()`, `event2 = asyncio.Event()`.
Two coroutine handlers run concurrently:

  `agenticHandler` (lines 10-24):
      loop: await event.wait(); event.clear();
            await websocket.send(message);
            message = await websocket.recv();
            event2.set()

  `dashboardHandler` (lines 26-41):
      message = await websocket.recv()
      while message != "exit":
            event.set();
            await event2.wait(); event2.clear();
            await websocket.send(message);
            message = await websocket.recv()

We embed the two handlers as a small-step transition system over an explicit
state: a program counter per handler, the shared mailbox `message`, the two
boolean signals, the remaining input tape of each transport, and ghost fields
recording what was received from the dashboard and what was sent on each
transport.  An `asyncio.Event.wait()` followed directly by `.clear()` contains
no suspension point, so the pair is modelled as one atomic observe-and-clear
step; every other statement is its own step (a strictly finer interleaving
than asyncio's, hence conservative for the invariants we prove).  Transport
failures (the connection closing or erroring during `send`/`recv`) are
modelled as separate failure steps that abort the handler's loop.
-/

/-- Program counter of `agenticHandler` (source lines 14-22). -/
inductive APc where
  | waitTurn
  | send
  | recv
  | setReply
  | done
deriving DecidableEq, Fintype

/-- Program counter of `dashboardHandler` (source lines 30-39).  The initial
`recv` on line 30 and the loop `recv` on line 39 both flow into the
`while (message != "exit")` test, so a single `recv` counter models both:
after a receive the handler either exits the loop (payload `"exit"`) or
proceeds to `event.set()`. -/
inductive DPc where
  | recv
  | setTurn
  | waitReply
  | send
  | done
deriving DecidableEq, Fintype

/-- An observable transport send: a payload delivered to the agent peer
(`websocket.send` on line 18) or to the dashboard peer (line 37). -/
inductive Ev where
  | toAgent : String → Ev
  | toDash : String → Ev
deriving DecidableEq

/-- Global state of the interleaved execution of the two handlers. -/
structure St where
  /-- the shared `message` variable (line 6) -/
  mailbox : String
  /-- the Turn Signal `event` (line 7): true iff set -/
  ev1 : Bool
  /-- the Reply Signal `event2` (line 8): true iff set -/
  ev2 : Bool
  /-- program counter of `agenticHandler` -/
  apc : APc
  /-- program counter of `dashboardHandler` -/
  dpc : DPc
  /-- payloads the dashboard transport will deliver, in order -/
  dashIn : List String
  /-- payloads the agent transport will deliver, in order -/
  agentIn : List String
  /-- ghost: payloads received from the dashboard transport so far -/
  dashRecvd : List String
  /-- ghost: payloads sent on either transport so far, in order -/
  trace : List Ev
deriving DecidableEq

/-- The initial state of the process: `message = "global"` (line 6), both
events unset (lines 7-8), each handler at its first statement, nothing yet
received or sent. -/
def initSt (d a : List String) : St :=
  ⟨"global", false, false, APc.waitTurn, DPc.recv, d, a, [], []⟩

/-- Successful steps of `agenticHandler` (lines 15-22). -/
inductive AStep : St → St → Prop where
  /-- `await event.wait(); event.clear()` (lines 15, 17): enabled only when
  the Turn Signal is set; observes and clears it. -/
  | waitTurn (s : St) (h1 : s.apc = APc.waitTurn) (h2 : s.ev1 = true) :
      AStep s { s with ev1 := false, apc := APc.send }
  /-- `await websocket.send(message)` (line 18): delivers the mailbox to the
  agent transport verbatim. -/
  | send (s : St) (h1 : s.apc = APc.send) :
      AStep s { s with apc := APc.recv, trace := s.trace ++ [Ev.toAgent s.mailbox] }
  /-- `message = await websocket.recv()` (line 20): stores the agent's reply
  into the mailbox. -/
  | recv (s : St) (p : String) (rest : List String) (h1 : s.apc = APc.recv)
      (h2 : s.agentIn = p :: rest) :
      AStep s { s with mailbox := p, agentIn := rest, apc := APc.setReply }
  /-- `event2.set()` (line 22): raises the Reply Signal. -/
  | setReply (s : St) (h1 : s.apc = APc.setReply) :
      AStep s { s with ev2 := true, apc := APc.waitTurn }

/-- Successful steps of `dashboardHandler` (lines 30-39). -/
inductive DStep : St → St → Prop where
  /-- `message = await websocket.recv()` receiving the sentinel `"exit"`
  (lines 30/39 followed by the line-31 test failing): the loop exits. -/
  | recvExit (s : St) (rest : List String) (h1 : s.dpc = DPc.recv)
      (h2 : s.dashIn = "exit" :: rest) :
      DStep s { s with mailbox := "exit", dashIn := rest,
                       dashRecvd := s.dashRecvd ++ ["exit"], dpc := DPc.done }
  /-- `message = await websocket.recv()` receiving a relayable payload
  (lines 30/39 followed by the line-31 test succeeding). -/
  | recvGo (s : St) (r : String) (rest : List String) (h1 : s.dpc = DPc.recv)
      (h2 : s.dashIn = r :: rest) (h3 : r ≠ "exit") :
      DStep s { s with mailbox := r, dashIn := rest,
                       dashRecvd := s.dashRecvd ++ [r], dpc := DPc.setTurn }
  /-- `event.set()` (line 33): raises the Turn Signal. -/
  | setTurn (s : St) (h1 : s.dpc = DPc.setTurn) :
      DStep s { s with ev1 := true, dpc := DPc.waitReply }
  /-- `await event2.wait(); event2.clear()` (lines 34, 36): enabled only when
  the Reply Signal is set; observes and clears it. -/
  | waitReply (s : St) (h1 : s.dpc = DPc.waitReply) (h2 : s.ev2 = true) :
      DStep s { s with ev2 := false, dpc := DPc.send }
  /-- `await websocket.send(message)` (line 37): delivers the mailbox (the
  agent's reply) to the dashboard transport verbatim. -/
  | send (s : St) (h1 : s.dpc = DPc.send) :
      DStep s { s with dpc := DPc.recv, trace := s.trace ++ [Ev.toDash s.mailbox] }

/-- Transport-failure steps: a `send` or `recv` raises (connection closed or
errored).  Neither handler has an `except` clause, so the exception ends the
handler's loop (`finally` only prints); the failing step writes neither the
mailbox nor a signal. -/
inductive FStep : St → St → Prop where
  | aSendFail (s : St) (h1 : s.apc = APc.send) : FStep s { s with apc := APc.done }
  | aRecvFail (s : St) (h1 : s.apc = APc.recv) : FStep s { s with apc := APc.done }
  | dSendFail (s : St) (h1 : s.dpc = DPc.send) : FStep s { s with dpc := DPc.done }
  | dRecvFail (s : St) (h1 : s.dpc = DPc.recv) : FStep s { s with dpc := DPc.done }

/-- One successful step of either handler. -/
def SStep (s t : St) : Prop := AStep s t ∨ DStep s t

/-- One step of the full system: a successful step or a transport failure. -/
def NStep (s t : St) : Prop := SStep s t ∨ FStep s t

/-- States reachable from the initial state under arbitrary interleaving,
transport failures included. -/
inductive Reachable (d a : List String) : St → Prop where
  | init : Reachable d a (initSt d a)
  | step {s t : St} : Reachable d a s → NStep s t → Reachable d a t

/-- States reachable from `s0` by successful (failure-free) steps. -/
inductive SReach (s0 : St) : St → Prop where
  | refl : SReach s0 s0
  | tail {s t : St} : SReach s0 s → SStep s t → SReach s0 t

theorem SReach.trans {a b c : St} (h1 : SReach a b) (h2 : SReach b c) : SReach a c := by
  induction h2 with
  | refl => exact h1
  | tail _ hst ih => exact ih.tail hst

/-- The deterministic scheduler of successful steps: in every state satisfying
the control invariant `CtlInv` below, at most one successful step is enabled, and
`stepFn` computes it (`none` when both handlers are blocked or finished). -/
def stepFn (s : St) : Option St :=
  if s.apc = APc.waitTurn ∧ s.ev1 = true then
    some { s with ev1 := false, apc := APc.send }
  else if s.apc = APc.send then
    some { s with apc := APc.recv, trace := s.trace ++ [Ev.toAgent s.mailbox] }
  else if s.apc = APc.recv then
    match s.agentIn with
    | p :: rest => some { s with mailbox := p, agentIn := rest, apc := APc.setReply }
    | [] => none
  else if s.apc = APc.setReply then
    some { s with ev2 := true, apc := APc.waitTurn }
  else if s.dpc = DPc.recv then
    match s.dashIn with
    | r :: rest =>
      if r = "exit" then
        some { s with mailbox := "exit", dashIn := rest,
                      dashRecvd := s.dashRecvd ++ ["exit"], dpc := DPc.done }
      else
        some { s with mailbox := r, dashIn := rest,
                      dashRecvd := s.dashRecvd ++ [r], dpc := DPc.setTurn }
    | [] => none
  else if s.dpc = DPc.setTurn then
    some { s with ev1 := true, dpc := DPc.waitReply }
  else if s.dpc = DPc.waitReply ∧ s.ev2 = true then
    some { s with ev2 := false, dpc := DPc.send }
  else if s.dpc = DPc.send then
    some { s with dpc := DPc.recv, trace := s.trace ++ [Ev.toDash s.mailbox] }
  else
    none

/-- Total version of `stepFn`: terminal states are fixpoints. -/
def stepT (s : St) : St := (stepFn s).getD s

/-- Iterate the deterministic scheduler. -/
def iter : Nat → St → St
  | 0, s => s
  | k + 1, s => iter k (stepT s)

/-- The control-state invariant, over the two signals and the two program
counters only.  It expresses the two-phase hand-off: whenever a signal is set
or a handler is mid-turn, the other handler is parked. -/
def InvC (e1 e2 : Bool) (a : APc) (d : DPc) : Prop :=
  (e1 = true → (a = APc.waitTurn ∨ a = APc.done) ∧ e2 = false ∧
      (d = DPc.waitReply ∨ d = DPc.done))
  ∧ (e2 = true → (a = APc.waitTurn ∨ a = APc.done) ∧ e1 = false ∧
      (d = DPc.waitReply ∨ d = DPc.done))
  ∧ ((a = APc.send ∨ a = APc.recv ∨ a = APc.setReply) → e1 = false ∧ e2 = false ∧
      (d = DPc.waitReply ∨ d = DPc.done))
  ∧ ((d = DPc.recv ∨ d = DPc.setTurn ∨ d = DPc.send) → e1 = false ∧ e2 = false ∧
      (a = APc.waitTurn ∨ a = APc.done))

instance decInvC (e1 e2 : Bool) (a : APc) (d : DPc) : Decidable (InvC e1 e2 a d) := by
  unfold InvC
  infer_instance

/-- The control invariant, read off a full state. -/
def CtlInv (s : St) : Prop := InvC s.ev1 s.ev2 s.apc s.dpc

theorem invC_aWaitTurn : ∀ (e2 : Bool) (d : DPc),
    InvC true e2 APc.waitTurn d → InvC false e2 APc.send d := by decide

theorem invC_aSend : ∀ (e1 e2 : Bool) (d : DPc),
    InvC e1 e2 APc.send d → InvC e1 e2 APc.recv d := by decide

theorem invC_aRecv : ∀ (e1 e2 : Bool) (d : DPc),
    InvC e1 e2 APc.recv d → InvC e1 e2 APc.setReply d := by decide

theorem invC_aSetReply : ∀ (e1 e2 : Bool) (d : DPc),
    InvC e1 e2 APc.setReply d → InvC e1 true APc.waitTurn d := by decide

theorem invC_dRecvStop : ∀ (e1 e2 : Bool) (a : APc),
    InvC e1 e2 a DPc.recv → InvC e1 e2 a DPc.done := by decide

theorem invC_dRecvGo : ∀ (e1 e2 : Bool) (a : APc),
    InvC e1 e2 a DPc.recv → InvC e1 e2 a DPc.setTurn := by decide

theorem invC_dSetTurn : ∀ (e1 e2 : Bool) (a : APc),
    InvC e1 e2 a DPc.setTurn → InvC true e2 a DPc.waitReply := by decide

theorem invC_dWaitReply : ∀ (e1 : Bool) (a : APc),
    InvC e1 true a DPc.waitReply → InvC e1 false a DPc.send := by decide

theorem invC_dSend : ∀ (e1 e2 : Bool) (a : APc),
    InvC e1 e2 a DPc.send → InvC e1 e2 a DPc.recv := by decide

theorem invC_aFail : ∀ (e1 e2 : Bool) (a : APc) (d : DPc),
    InvC e1 e2 a d → (a = APc.send ∨ a = APc.recv) → InvC e1 e2 APc.done d := by decide

theorem invC_dFail : ∀ (e1 e2 : Bool) (a : APc) (d : DPc),
    InvC e1 e2 a d → (d = DPc.send ∨ d = DPc.recv) → InvC e1 e2 a DPc.done := by decide

/-- The control invariant is preserved by every step of the system,
transport failures included. -/
theorem inv_step {s t : St} (hc : CtlInv s) (hst : NStep s t) : CtlInv t := by
  have hc' : InvC s.ev1 s.ev2 s.apc s.dpc := hc
  rcases hst with hst | hst
  · rcases hst with hst | hst
    · cases hst with
      | waitTurn h1 h2 =>
          rw [h1, h2] at hc'
          exact invC_aWaitTurn s.ev2 s.dpc hc'
      | send h1 =>
          rw [h1] at hc'
          exact invC_aSend s.ev1 s.ev2 s.dpc hc'
      | recv p rest h1 h2 =>
          rw [h1] at hc'
          exact invC_aRecv s.ev1 s.ev2 s.dpc hc'
      | setReply h1 =>
          rw [h1] at hc'
          exact invC_aSetReply s.ev1 s.ev2 s.dpc hc'
    · cases hst with
      | recvExit rest h1 h2 =>
          rw [h1] at hc'
          exact invC_dRecvStop s.ev1 s.ev2 s.apc hc'
      | recvGo r rest h1 h2 h3 =>
          rw [h1] at hc'
          exact invC_dRecvGo s.ev1 s.ev2 s.apc hc'
      | setTurn h1 =>
          rw [h1] at hc'
          exact invC_dSetTurn s.ev1 s.ev2 s.apc hc'
      | waitReply h1 h2 =>
          rw [h1, h2] at hc'
          exact invC_dWaitReply s.ev1 s.apc hc'
      | send h1 =>
          rw [h1] at hc'
          exact invC_dSend s.ev1 s.ev2 s.apc hc'
  · cases hst with
    | aSendFail h1 => exact invC_aFail s.ev1 s.ev2 s.apc s.dpc hc' (Or.inl h1)
    | aRecvFail h1 => exact invC_aFail s.ev1 s.ev2 s.apc s.dpc hc' (Or.inr h1)
    | dSendFail h1 => exact invC_dFail s.ev1 s.ev2 s.apc s.dpc hc' (Or.inl h1)
    | dRecvFail h1 => exact invC_dFail s.ev1 s.ev2 s.apc s.dpc hc' (Or.inr h1)

theorem inv_init (d a : List String) : CtlInv (initSt d a) := by
  show InvC false false APc.waitTurn DPc.recv
  decide

/-- Every reachable state satisfies the control invariant. -/
theorem inv_reachable {d a : List String} {s : St} (h : Reachable d a s) : CtlInv s := by
  induction h with
  | init => exact inv_init d a
  | step _ hst ih => exact inv_step ih hst

/-- The control invariant propagates along failure-free executions. -/
theorem inv_sreach {s0 s : St} (h0 : CtlInv s0) (h : SReach s0 s) : CtlInv s := by
  induction h with
  | refl => exact h0
  | tail _ hst ih => exact inv_step ih (Or.inl hst)

theorem invc_dbusy : ∀ (e1 e2 : Bool) (a : APc) (d : DPc), InvC e1 e2 a d →
    (d = DPc.recv ∨ d = DPc.setTurn ∨ d = DPc.send) →
    e1 = false ∧ e2 = false ∧ (a = APc.waitTurn ∨ a = APc.done) := by decide

theorem invc_amid : ∀ (e1 e2 : Bool) (a : APc) (d : DPc), InvC e1 e2 a d →
    (a = APc.send ∨ a = APc.recv ∨ a = APc.setReply) →
    e1 = false ∧ e2 = false ∧ (d = DPc.waitReply ∨ d = DPc.done) := by decide

theorem invc_ev2set : ∀ (e1 e2 : Bool) (a : APc) (d : DPc), InvC e1 e2 a d →
    e2 = true → e1 = false ∧ (a = APc.waitTurn ∨ a = APc.done) := by decide

/-- In a state satisfying the control invariant, the deterministic scheduler
computes every enabled successful step: failure-free execution is
deterministic. -/
theorem stepFn_complete {s t : St} (hc : CtlInv s) (hst : SStep s t) :
    stepFn s = some t := by
  have hc' : InvC s.ev1 s.ev2 s.apc s.dpc := hc
  rcases hst with hst | hst
  · cases hst with
    | waitTurn h1 h2 => simp [stepFn, h1, h2]
    | send h1 => simp [stepFn, h1]
    | recv p rest h1 h2 => simp [stepFn, h1, h2]
    | setReply h1 => simp [stepFn, h1]
  · cases hst with
    | recvExit rest h1 h2 =>
        obtain ⟨he1, he2, ha⟩ := invc_dbusy s.ev1 s.ev2 s.apc s.dpc hc' (Or.inl h1)
        rcases ha with ha | ha <;> simp [stepFn, h1, h2, he1, he2, ha]
    | recvGo r rest h1 h2 h3 =>
        obtain ⟨he1, he2, ha⟩ := invc_dbusy s.ev1 s.ev2 s.apc s.dpc hc' (Or.inl h1)
        rcases ha with ha | ha <;> simp [stepFn, h1, h2, h3, he1, he2, ha]
    | setTurn h1 =>
        obtain ⟨he1, he2, ha⟩ :=
          invc_dbusy s.ev1 s.ev2 s.apc s.dpc hc' (Or.inr (Or.inl h1))
        rcases ha with ha | ha <;> simp [stepFn, h1, he1, he2, ha]
    | waitReply h1 h2 =>
        obtain ⟨he1, ha⟩ := invc_ev2set s.ev1 s.ev2 s.apc s.dpc hc' h2
        rcases ha with ha | ha <;> simp [stepFn, h1, h2, he1, ha]
    | send h1 =>
        obtain ⟨he1, he2, ha⟩ :=
          invc_dbusy s.ev1 s.ev2 s.apc s.dpc hc' (Or.inr (Or.inr h1))
        rcases ha with ha | ha <;> simp [stepFn, h1, he1, he2, ha]

/-- Every step the deterministic scheduler takes is a genuine successful step
of one of the two handlers. -/
theorem stepFn_sound {s t : St} (h : stepFn s = some t) : SStep s t := by
  unfold stepFn at h
  split at h
  next hc1 =>
    injection h with h
    subst h
    exact Or.inl (AStep.waitTurn s hc1.1 hc1.2)
  next hc1 =>
    split at h
    next hc2 =>
      injection h with h
      subst h
      exact Or.inl (AStep.send s hc2)
    next hc2 =>
      split at h
      next hc3 =>
        split at h
        next p rest heq =>
          injection h with h
          subst h
          exact Or.inl (AStep.recv s p rest hc3 heq)
        next heq => exact Option.noConfusion h
      next hc3 =>
        split at h
        next hc4 =>
          injection h with h
          subst h
          exact Or.inl (AStep.setReply s hc4)
        next hc4 =>
          split at h
          next hc5 =>
            split at h
            next r rest heq =>
              split at h
              next hex =>
                injection h with h
                subst h
                subst hex
                exact Or.inr (DStep.recvExit s rest hc5 heq)
              next hex =>
                injection h with h
                subst h
                exact Or.inr (DStep.recvGo s r rest hc5 heq hex)
            next heq => exact Option.noConfusion h
          next hc5 =>
            split at h
            next hc6 =>
              injection h with h
              subst h
              exact Or.inr (DStep.setTurn s hc6)
            next hc6 =>
              split at h
              next hc7 =>
                injection h with h
                subst h
                exact Or.inr (DStep.waitReply s hc7.1 hc7.2)
              next hc7 =>
                split at h
                next hc8 =>
                  injection h with h
                  subst h
                  exact Or.inr (DStep.send s hc8)
                next hc8 => exact Option.noConfusion h

theorem iter_succ (k : Nat) (s : St) : iter (k + 1) s = iter k (stepT s) := rfl

theorem iter_succ_out (k : Nat) (s : St) : iter (k + 1) s = stepT (iter k s) := by
  induction k generalizing s with
  | zero => rfl
  | succ k ih =>
      calc iter (k + 1 + 1) s = iter (k + 1) (stepT s) := rfl
        _ = stepT (iter k (stepT s)) := ih (stepT s)
        _ = stepT (iter (k + 1) s) := rfl

theorem iter_add (a b : Nat) (s : St) : iter (a + b) s = iter b (iter a s) := by
  induction a generalizing s with
  | zero => rw [Nat.zero_add]; rfl
  | succ a ih => rw [Nat.succ_add]; exact ih (stepT s)

theorem stepT_none {s : St} (h : stepFn s = none) : stepT s = s := by
  simp [stepT, h]

theorem iter_stall {s : St} (h : stepFn s = none) (k : Nat) : iter k s = s := by
  induction k with
  | zero => rfl
  | succ k ih =>
      show iter k (stepT s) = s
      rw [stepT_none h]
      exact ih

/-- A successful step only ever appends to the send trace. -/
theorem sstep_trace {s t : St} (h : SStep s t) : s.trace <+: t.trace := by
  rcases h with h | h
  · cases h with
    | waitTurn h1 h2 => exact List.prefix_rfl
    | send h1 => exact ⟨[Ev.toAgent s.mailbox], rfl⟩
    | recv p rest h1 h2 => exact List.prefix_rfl
    | setReply h1 => exact List.prefix_rfl
  · cases h with
    | recvExit rest h1 h2 => exact List.prefix_rfl
    | recvGo r rest h1 h2 h3 => exact List.prefix_rfl
    | setTurn h1 => exact List.prefix_rfl
    | waitReply h1 h2 => exact List.prefix_rfl
    | send h1 => exact ⟨[Ev.toDash s.mailbox], rfl⟩

theorem stepT_trace (s : St) : s.trace <+: (stepT s).trace := by
  cases h : stepFn s with
  | none => simp [stepT, h]
  | some t =>
      have ht : stepT s = t := by simp [stepT, h]
      rw [ht]
      exact sstep_trace (stepFn_sound h)

theorem iter_trace (k : Nat) (s : St) : s.trace <+: (iter k s).trace := by
  induction k generalizing s with
  | zero => exact List.prefix_rfl
  | succ k ih => exact (stepT_trace s).trans (ih (stepT s))

theorem iter_trace_le {j k : Nat} (h : j ≤ k) (s : St) :
    (iter j s).trace <+: (iter k s).trace := by
  obtain ⟨m, rfl⟩ := Nat.exists_eq_add_of_le h
  rw [iter_add]
  exact iter_trace m (iter j s)

/-- Failure-free executions follow the deterministic scheduler: every
reachable state is an iterate of `stepT`. -/
theorem sreach_iter {s0 s : St} (h0 : CtlInv s0) (h : SReach s0 s) :
    ∃ k, iter k s0 = s := by
  induction h with
  | refl => exact ⟨0, rfl⟩
  | tail hr hst ih =>
      obtain ⟨k, hk⟩ := ih
      refine ⟨k + 1, ?_⟩
      rw [iter_succ_out, hk]
      have hc := inv_sreach h0 hr
      simp [stepT, stepFn_complete hc hst]

/-- The strictly alternating send trace of a complete session: each dashboard
request is delivered to the agent, then the matching agent reply is delivered
back to the dashboard, turn after turn. -/
def interleave : List String → List String → List Ev
  | r :: rs, p :: ps => Ev.toAgent r :: Ev.toDash p :: interleave rs ps
  | _, _ => []

/-- Complete execution of a session: from a state where the dashboard is about
to receive, the dashboard inputs being `reqs` (none of them `"exit"`) followed
by the sentinel, and the agent supplying one reply per request, the system
runs to the terminated state, producing exactly the alternating trace
`interleave reqs reps`. -/
theorem run_sreach (reqs : List String) :
    ∀ (reps : List String) (m : String) (rc : List String) (tr : List Ev),
    "exit" ∉ reqs → reps.length = reqs.length →
    SReach ⟨m, false, false, APc.waitTurn, DPc.recv, reqs ++ ["exit"], reps, rc, tr⟩
      ⟨"exit", false, false, APc.waitTurn, DPc.done, [], [],
        rc ++ reqs ++ ["exit"], tr ++ interleave reqs reps⟩ := by
  induction reqs with
  | nil =>
      intro reps m rc tr hex hlen
      have hreps : reps = [] := List.length_eq_zero.mp hlen
      subst hreps
      have h1 := SReach.tail (SReach.refl)
        (Or.inr (DStep.recvExit
          ⟨m, false, false, APc.waitTurn, DPc.recv, ["exit"], [], rc, tr⟩ [] rfl rfl))
      simpa [interleave] using h1
  | cons r rs ih =>
      intro reps m rc tr hex hlen
      obtain ⟨p, ps, rfl⟩ : ∃ p ps, reps = p :: ps := by
        cases reps with
        | nil => simp at hlen
        | cons p ps => exact ⟨p, ps, rfl⟩
      have hr : r ≠ "exit" := fun hh => hex (hh ▸ List.mem_cons_self r rs)
      have hex' : "exit" ∉ rs := fun hh => hex (List.mem_cons_of_mem r hh)
      have hlen' : ps.length = rs.length := by simpa using hlen
      have t1 : SReach
          ⟨m, false, false, APc.waitTurn, DPc.recv, (r :: rs) ++ ["exit"], p :: ps, rc, tr⟩
          ⟨r, false, false, APc.waitTurn, DPc.setTurn, rs ++ ["exit"], p :: ps, rc ++ [r], tr⟩ :=
        SReach.tail SReach.refl
          (Or.inr (DStep.recvGo _ r (rs ++ ["exit"]) rfl rfl hr))
      have t2 := t1.tail (Or.inr (DStep.setTurn _ rfl))
      have t3 := t2.tail (Or.inl (AStep.waitTurn _ rfl rfl))
      have t4 := t3.tail (Or.inl (AStep.send _ rfl))
      have t5 := t4.tail (Or.inl (AStep.recv _ p ps rfl rfl))
      have t6 := t5.tail (Or.inl (AStep.setReply _ rfl))
      have t7 := t6.tail (Or.inr (DStep.waitReply _ rfl rfl))
      have t8 := t7.tail (Or.inr (DStep.send _ rfl))
      have hfull := SReach.trans t8
        (ih ps p (rc ++ [r]) ((tr ++ [Ev.toAgent r]) ++ [Ev.toDash p]) hex' hlen')
      simpa [interleave] using hfull

/-- The state in which a finished session ends is terminal for the
scheduler: the dashboard handler has left its loop and the agent handler is
blocked on the Turn Signal. -/
theorem stepFn_final (mb : String) (rc : List String) (tr : List Ev) :
    stepFn ⟨mb, false, false, APc.waitTurn, DPc.done, [], [], rc, tr⟩ = none := by
  simp [stepFn]

/-- `run_sreach` instantiated at the initial state of the process. -/
theorem run_from_init (reqs reps : List String) (hex : "exit" ∉ reqs)
    (hlen : reps.length = reqs.length) :
    SReach (initSt (reqs ++ ["exit"]) reps)
      ⟨"exit", false, false, APc.waitTurn, DPc.done, [], [],
        reqs ++ ["exit"], interleave reqs reps⟩ := by
  have h := run_sreach reqs reps "global" [] [] hex hlen
  simpa using h

/-- In a complete-session configuration, every failure-free execution's trace
is a prefix of the alternating trace: no send is ever performed out of order,
and never two sends to the same side without the other side's send between
them. -/
theorem sreach_trace_prefix (reqs reps : List String) (hex : "exit" ∉ reqs)
    (hlen : reps.length = reqs.length) {s : St}
    (h : SReach (initSt (reqs ++ ["exit"]) reps) s) :
    s.trace <+: interleave reqs reps := by
  have h0 : CtlInv (initSt (reqs ++ ["exit"]) reps) := inv_init _ _
  obtain ⟨k, hk⟩ := sreach_iter h0 h
  obtain ⟨K, hK⟩ := sreach_iter h0 (run_from_init reqs reps hex hlen)
  have hFnone : stepFn (iter K (initSt (reqs ++ ["exit"]) reps)) = none := by
    rw [hK]; exact stepFn_final _ _ _
  rcases le_total k K with hle | hle
  · have hpre := iter_trace_le hle (initSt (reqs ++ ["exit"]) reps)
    rw [hk, hK] at hpre
    exact hpre
  · obtain ⟨mm, rfl⟩ := Nat.exists_eq_add_of_le hle
    rw [iter_add, iter_stall hFnone] at hk
    rw [← hk, hK]

/-- Data invariant behind claim C9: whenever the Turn Signal is up, or the
agent handler is between consuming it and sending, or the dashboard handler
is about to raise it, the mailbox holds a payload that came from the
dashboard transport and is not the sentinel; and every payload ever sent to
the agent came from the dashboard transport and is not the sentinel. -/
def Inv9 (s : St) : Prop :=
  (s.ev1 = true → s.mailbox ∈ s.dashRecvd ∧ s.mailbox ≠ "exit")
  ∧ (s.apc = APc.send → s.mailbox ∈ s.dashRecvd ∧ s.mailbox ≠ "exit")
  ∧ (s.dpc = DPc.setTurn → s.mailbox ∈ s.dashRecvd ∧ s.mailbox ≠ "exit")
  ∧ (∀ q, Ev.toAgent q ∈ s.trace → q ∈ s.dashRecvd ∧ q ≠ "exit")

theorem inv9_step {s t : St} (hc : CtlInv s) (h9 : Inv9 s) (hst : NStep s t) :
    Inv9 t := by
  have hc' : InvC s.ev1 s.ev2 s.apc s.dpc := hc
  obtain ⟨b1, b2, b3, b4⟩ := h9
  rcases hst with hst | hst
  · rcases hst with hst | hst
    · cases hst with
      | waitTurn h1 h2 =>
          exact ⟨by simp, fun _ => b1 h2, b3, b4⟩
      | send h1 =>
          refine ⟨b1, by simp, b3, ?_⟩
          intro q hq
          rcases List.mem_append.mp hq with hq | hq
          · exact b4 q hq
          · have hqm : q = s.mailbox := by simpa using hq
            subst hqm
            exact b2 h1
      | recv p rest h1 h2 =>
          obtain ⟨he1, he2, hd⟩ :=
            invc_amid s.ev1 s.ev2 s.apc s.dpc hc' (Or.inr (Or.inl h1))
          refine ⟨?_, by simp, ?_, b4⟩
          · intro hh
            rw [he1] at hh
            exact absurd hh (by simp)
          · intro hh
            rcases hd with hd | hd <;> rw [hd] at hh <;> exact absurd hh (by simp)
      | setReply h1 =>
          exact ⟨b1, by simp, b3, b4⟩
    · cases hst with
      | recvExit rest h1 h2 =>
          obtain ⟨he1, he2, ha⟩ := invc_dbusy s.ev1 s.ev2 s.apc s.dpc hc' (Or.inl h1)
          refine ⟨?_, ?_, by simp, ?_⟩
          · intro hh
            rw [he1] at hh
            exact absurd hh (by simp)
          · intro hh
            rcases ha with ha | ha <;> rw [ha] at hh <;> exact absurd hh (by simp)
          · intro q hq
            obtain ⟨hmem, hne⟩ := b4 q hq
            exact ⟨List.mem_append.mpr (Or.inl hmem), hne⟩
      | recvGo r rest h1 h2 h3 =>
          refine ⟨fun _ => ⟨List.mem_append.mpr (Or.inr (by simp)), h3⟩,
                 fun _ => ⟨List.mem_append.mpr (Or.inr (by simp)), h3⟩,
                 fun _ => ⟨List.mem_append.mpr (Or.inr (by simp)), h3⟩, ?_⟩
          intro q hq
          obtain ⟨hmem, hne⟩ := b4 q hq
          exact ⟨List.mem_append.mpr (Or.inl hmem), hne⟩
      | setTurn h1 =>
          exact ⟨fun _ => b3 h1, b2, by simp, b4⟩
      | waitReply h1 h2 =>
          exact ⟨b1, b2, by simp, b4⟩
      | send h1 =>
          refine ⟨b1, b2, by simp, ?_⟩
          intro q hq
          rcases List.mem_append.mp hq with hq | hq
          · exact b4 q hq
          · exact absurd hq (by simp)
  · cases hst with
    | aSendFail h1 => exact ⟨b1, by simp, b3, b4⟩
    | aRecvFail h1 => exact ⟨b1, by simp, b3, b4⟩
    | dSendFail h1 => exact ⟨b1, b2, by simp, b4⟩
    | dRecvFail h1 => exact ⟨b1, b2, by simp, b4⟩

theorem inv9_init (d a : List String) : Inv9 (initSt d a) :=
  ⟨by simp [initSt], by simp [initSt], by simp [initSt], by simp [initSt]⟩

theorem inv9_reachable {d a : List String} {s : St} (h : Reachable d a s) : Inv9 s := by
  induction h with
  | init => exact inv9_init d a
  | step hr hst ih => exact inv9_step (inv_reachable hr) ih hst

/-- Projection of a trace entry to the payload it delivered to the agent. -/
def agentPayload : Ev → Option String
  | Ev.toAgent q => some q
  | Ev.toDash _ => none

/-- Projection of a trace entry to the payload it delivered to the dashboard. -/
def dashPayload : Ev → Option String
  | Ev.toDash q => some q
  | Ev.toAgent _ => none

theorem interleave_agent (reqs : List String) :
    ∀ reps : List String, reps.length = reqs.length →
    (interleave reqs reps).filterMap agentPayload = reqs := by
  induction reqs with
  | nil =>
      intro reps hlen
      have hreps : reps = [] := List.length_eq_zero.mp hlen
      subst hreps
      rfl
  | cons r rs ih =>
      intro reps hlen
      obtain ⟨p, ps, rfl⟩ : ∃ p ps, reps = p :: ps := by
        cases reps with
        | nil => simp at hlen
        | cons p ps => exact ⟨p, ps, rfl⟩
      have hlen' : ps.length = rs.length := by simpa using hlen
      simp [interleave, List.filterMap_cons, agentPayload, ih ps hlen']

theorem interleave_dash (reqs : List String) :
    ∀ reps : List String, reps.length = reqs.length →
    (interleave reqs reps).filterMap dashPayload = reps := by
  induction reqs with
  | nil =>
      intro reps hlen
      have hreps : reps = [] := List.length_eq_zero.mp hlen
      subst hreps
      rfl
  | cons r rs ih =>
      intro reps hlen
      obtain ⟨p, ps, rfl⟩ : ∃ p ps, reps = p :: ps := by
        cases reps with
        | nil => simp at hlen
        | cons p ps => exact ⟨p, ps, rfl⟩
      have hlen' : ps.length = rs.length := by simpa using hlen
      simp [interleave, List.filterMap_cons, dashPayload, ih ps hlen']

/-- Which handler a listener runs. -/
inductive Role where
  | agent
  | dashboard
deriving DecidableEq

/-- A server started by `main`: the handler it dispatches to, the interface
string it binds, and the TCP port. -/
structure ServerBinding where
  role : Role
  host : String
  port : Nat
deriving DecidableEq

/-- The two listeners created in `main` (source lines 44-45):
`websockets.serve(agenticHandler, "0.0.0.0", 12691)` and
`websockets.serve(dashboardHandler, "localhost", 12345)`. -/
def mainServers : List ServerBinding :=
  [⟨Role.agent, "0.0.0.0", 12691⟩, ⟨Role.dashboard, "localhost", 12345⟩]

/-- The host string that makes a listener accept on all network interfaces. -/
def allInterfaces : String := "0.0.0.0"

/-- The host string that restricts a listener to the loopback interface. -/
def loopback : String := "localhost"

/-- Claim C1: at every reachable instant of the interleaved execution of the
two handlers (transport failures included), the Turn Signal (`event`) and the
Reply Signal (`event2`) are not both set. -/
theorem C1_at_most_one_signal (d a : List String) (s : St) (h : Reachable d a s) :
    ¬ (s.ev1 = true ∧ s.ev2 = true) := by
  have hc : InvC s.ev1 s.ev2 s.apc s.dpc := inv_reachable h
  have key : ∀ (e1 e2 : Bool) (ap : APc) (dp : DPc),
      InvC e1 e2 ap dp → ¬ (e1 = true ∧ e2 = true) := by decide
  exact key s.ev1 s.ev2 s.apc s.dpc hc

theorem C1_witness :
    ¬ (((⟨"hi", true, false, APc.waitTurn, DPc.waitReply,
        ["exit"], ["ok"], ["hi"], []⟩ : St)).ev1 = true ∧
      ((⟨"hi", true, false, APc.waitTurn, DPc.waitReply,
        ["exit"], ["ok"], ["hi"], []⟩ : St)).ev2 = true) :=
  C1_at_most_one_signal ["hi", "exit"] ["ok"] _
    (Reachable.step
      (Reachable.step Reachable.init
        (Or.inl (Or.inr (DStep.recvGo _ "hi" ["exit"] rfl rfl (by decide)))))
      (Or.inl (Or.inr (DStep.setTurn _ rfl))))

/-- Claim C2: for every sequence of N non-"exit" dashboard requests with one
agent attached supplying one reply per request, the system performs exactly
N sends to the agent and exactly N reply sends back to the dashboard,
strictly interleaved turn-for-turn: the (deterministic) failure-free
execution runs to a terminal state with trace exactly `interleave reqs reps`,
and every failure-free execution's trace is a prefix of that alternating
trace, so no request is relayed out of order and never two requests are
relayed without the intervening reply. -/
theorem C2_alternation (reqs reps : List String) (hex : "exit" ∉ reqs)
    (hlen : reps.length = reqs.length) :
    (∃ F, SReach (initSt (reqs ++ ["exit"]) reps) F ∧
        F.trace = interleave reqs reps ∧ stepFn F = none) ∧
    (∀ s, SReach (initSt (reqs ++ ["exit"]) reps) s →
        s.trace <+: interleave reqs reps) := by
  refine ⟨⟨_, run_from_init reqs reps hex hlen, rfl, stepFn_final _ _ _⟩, ?_⟩
  intro s hs
  exact sreach_trace_prefix reqs reps hex hlen hs

theorem C2_witness :
    ("exit" ∉ (["hello"] : List String)) ∧
    ((["reply"] : List String).length = (["hello"] : List String).length) ∧
    ((∃ F, SReach (initSt (["hello"] ++ ["exit"]) ["reply"]) F ∧
        F.trace = interleave ["hello"] ["reply"] ∧ stepFn F = none) ∧
    (∀ s, SReach (initSt (["hello"] ++ ["exit"]) ["reply"]) s →
        s.trace <+: interleave ["hello"] ["reply"])) :=
  ⟨by decide, by decide, C2_alternation ["hello"] ["reply"] (by decide) (by decide)⟩

/-- Claim C3: pass-through fidelity — over a complete session, the sequence
of payloads delivered to the agent transport is exactly the sequence of
non-"exit" payloads received from the dashboard transport, and the sequence
of payloads delivered to the dashboard transport is exactly the sequence of
agent replies; no transformation is applied anywhere on the relay path. -/
theorem C3_passthrough (reqs reps : List String) (hex : "exit" ∉ reqs)
    (hlen : reps.length = reqs.length) :
    ∃ F, SReach (initSt (reqs ++ ["exit"]) reps) F ∧ stepFn F = none ∧
      F.trace.filterMap agentPayload = reqs ∧
      F.trace.filterMap dashPayload = reps := by
  refine ⟨_, run_from_init reqs reps hex hlen, stepFn_final _ _ _, ?_, ?_⟩
  · exact interleave_agent reqs reps hlen
  · exact interleave_dash reqs reps hlen

theorem C3_witness :
    ("exit" ∉ (["payload P"] : List String)) ∧
    ((["reply R"] : List String).length = (["payload P"] : List String).length) ∧
    (∃ F, SReach (initSt (["payload P"] ++ ["exit"]) ["reply R"]) F ∧ stepFn F = none ∧
      F.trace.filterMap agentPayload = ["payload P"] ∧
      F.trace.filterMap dashPayload = ["reply R"]) :=
  ⟨by decide, by decide, C3_passthrough ["payload P"] ["reply R"] (by decide) (by decide)⟩

/-- Claim C4: whenever the dashboard handler receives the payload `"exit"` —
as the initial payload or at any later receive, both of which sit at the
`DPc.recv` counter — the dashboard session loop terminates: the only possible
dashboard step moves the handler to `DPc.done` without sending anything and
without touching the Turn Signal, and from the resulting state no further
dashboard step exists. -/
theorem C4_exit_terminates (s : St) (rest : List String) (h1 : s.dpc = DPc.recv)
    (h2 : s.dashIn = "exit" :: rest) :
    ∀ t, DStep s t →
      t.dpc = DPc.done ∧ t.ev1 = s.ev1 ∧ t.trace = s.trace ∧ ∀ u, ¬ DStep t u := by
  have hdone : ∀ (w u : St), w.dpc = DPc.done → ¬ DStep w u := by
    intro w u hw hstep
    cases hstep <;> simp_all
  intro t ht
  cases ht with
  | recvExit rest' h1' h2' =>
      exact ⟨rfl, rfl, rfl, fun u => hdone _ u rfl⟩
  | recvGo r rest' h1' h2' h3' =>
      rw [h2] at h2'
      injection h2' with he hrest
      exact absurd he.symm h3'
  | setTurn h1' => rw [h1] at h1'; simp at h1'
  | waitReply h1' h2' => rw [h1] at h1'; simp at h1'
  | send h1' => rw [h1] at h1'; simp at h1'

theorem C4_witness :
    ((⟨"x", false, false, APc.waitTurn, DPc.recv, ["exit"], [], [], []⟩ : St).dpc
        = DPc.recv) ∧
    ((⟨"x", false, false, APc.waitTurn, DPc.recv, ["exit"], [], [], []⟩ : St).dashIn
        = "exit" :: []) ∧
    ∀ t, DStep (⟨"x", false, false, APc.waitTurn, DPc.recv, ["exit"], [], [], []⟩ : St) t →
      t.dpc = DPc.done ∧
      t.ev1 = (⟨"x", false, false, APc.waitTurn, DPc.recv, ["exit"], [], [], []⟩ : St).ev1 ∧
      t.trace = (⟨"x", false, false, APc.waitTurn, DPc.recv, ["exit"], [], [], []⟩ : St).trace ∧
      ∀ u, ¬ DStep t u :=
  ⟨rfl, rfl, C4_exit_terminates _ [] rfl rfl⟩

/-- A prefix of a one-element list is empty or the list itself. -/
theorem prefix_of_singleton {A : Type} {l : List A} {x : A} (h : l <+: [x]) :
    l = [] ∨ l = [x] := by
  obtain ⟨t, ht⟩ := h
  cases l with
  | nil => exact Or.inl rfl
  | cons y ys =>
      injection ht with h1 h2
      subst h1
      have hys : ys = [] := (List.append_eq_nil.mp h2).1
      subst hys
      exact Or.inr rfl

/-- Claim C5: priming — for a dashboard session whose first received payload
P is not "exit", the handler stores P into the mailbox and raises the Turn
Signal in its first two steps, before it ever waits on any signal (it only
then arrives at `DPc.waitReply`); no Turn Signal is set before this first
receive (`ev1` is false initially); the execution continues so that P is the
first payload delivered to the agent, and in every failure-free execution
the trace is either still empty or begins with the delivery of P to the
agent. -/
theorem C5_priming (P : String) (ds as : List String) (hP : P ≠ "exit") :
    (initSt (P :: ds) as).ev1 = false ∧
    SReach (initSt (P :: ds) as)
      ⟨P, true, false, APc.waitTurn, DPc.waitReply, ds, as, [P], []⟩ ∧
    SReach (initSt (P :: ds) as)
      ⟨P, false, false, APc.recv, DPc.waitReply, ds, as, [P], [Ev.toAgent P]⟩ ∧
    ∀ s, SReach (initSt (P :: ds) as) s →
      s.trace = [] ∨ [Ev.toAgent P] <+: s.trace := by
  have t1 : SReach (initSt (P :: ds) as)
      ⟨P, false, false, APc.waitTurn, DPc.setTurn, ds, as, [P], []⟩ :=
    SReach.tail SReach.refl (Or.inr (DStep.recvGo _ P ds rfl rfl hP))
  have t2 := t1.tail (Or.inr (DStep.setTurn _ rfl))
  have t3 := t2.tail (Or.inl (AStep.waitTurn _ rfl rfl))
  have t4 := t3.tail (Or.inl (AStep.send _ rfl))
  have t4' : SReach (initSt (P :: ds) as)
      ⟨P, false, false, APc.recv, DPc.waitReply, ds, as, [P], [Ev.toAgent P]⟩ := t4
  refine ⟨rfl, t2, t4', ?_⟩
  intro s hs
  have h0 : CtlInv (initSt (P :: ds) as) := inv_init _ _
  obtain ⟨k, hk⟩ := sreach_iter h0 hs
  obtain ⟨k4, hk4⟩ := sreach_iter h0 t4'
  rcases le_total k k4 with hle | hle
  · have hpre := iter_trace_le hle (initSt (P :: ds) as)
    rw [hk, hk4] at hpre
    have hpre' : s.trace <+: [Ev.toAgent P] := hpre
    rcases prefix_of_singleton hpre' with he | he
    · exact Or.inl he
    · refine Or.inr ?_
      rw [he]
  · have hpre := iter_trace_le hle (initSt (P :: ds) as)
    rw [hk4, hk] at hpre
    exact Or.inr hpre

theorem C5_witness :
    ("ping" ≠ "exit") ∧
    ((initSt ("ping" :: ["exit"]) ["ok"]).ev1 = false ∧
    SReach (initSt ("ping" :: ["exit"]) ["ok"])
      ⟨"ping", true, false, APc.waitTurn, DPc.waitReply, ["exit"], ["ok"], ["ping"], []⟩ ∧
    SReach (initSt ("ping" :: ["exit"]) ["ok"])
      ⟨"ping", false, false, APc.recv, DPc.waitReply, ["exit"], ["ok"], ["ping"],
        [Ev.toAgent "ping"]⟩ ∧
    ∀ s, SReach (initSt ("ping" :: ["exit"]) ["ok"]) s →
      s.trace = [] ∨ [Ev.toAgent "ping"] <+: s.trace) :=
  ⟨by decide, C5_priming "ping" ["exit"] ["ok"] (by decide)⟩

/-- Claim C6 counterexample: in the initial state the mailbox does not hold
the sentinel `"exit"` — line 6 of the source initializes `message` to
`"global"`. -/
theorem C6_counterexample : ¬ ((initSt [] []).mailbox = "exit") := by decide

/-- Claim C6 (amended): in the initial state of the process, before any
handler runs, the mailbox holds the placeholder literal `"global"`, a value
distinct from the sentinel `"exit"` — not the sentinel itself as claimed. -/
theorem C6_initial_mailbox (d a : List String) :
    (initSt d a).mailbox = "global" ∧ (initSt d a).mailbox ≠ "exit" :=
  ⟨rfl, by
    show ("global" : String) ≠ "exit"
    decide⟩

/-- Claim C7: if a transport send or receive fails at any point in either
handler, that handler exits its loop (its counter becomes `done`), and the
failing step writes neither the mailbox nor either signal nor the trace, so
the mailbox retains the last value written before the failure. -/
theorem C7_failure_preserves (s t : St) (h : FStep s t) :
    t.mailbox = s.mailbox ∧ t.ev1 = s.ev1 ∧ t.ev2 = s.ev2 ∧
    t.trace = s.trace ∧ t.dashRecvd = s.dashRecvd ∧
    (t.apc = APc.done ∨ t.dpc = DPc.done) := by
  cases h with
  | aSendFail h1 => exact ⟨rfl, rfl, rfl, rfl, rfl, Or.inl rfl⟩
  | aRecvFail h1 => exact ⟨rfl, rfl, rfl, rfl, rfl, Or.inl rfl⟩
  | dSendFail h1 => exact ⟨rfl, rfl, rfl, rfl, rfl, Or.inr rfl⟩
  | dRecvFail h1 => exact ⟨rfl, rfl, rfl, rfl, rfl, Or.inr rfl⟩

/-- A state in which the agent handler is about to send: used to witness C7. -/
def failS : St := ⟨"last", false, false, APc.send, DPc.waitReply, [], [], ["last"], []⟩

/-- The state after the agent transport fails in `failS`. -/
def failT : St := ⟨"last", false, false, APc.done, DPc.waitReply, [], [], ["last"], []⟩

theorem C7_witness :
    FStep failS failT ∧
    (failT.mailbox = failS.mailbox ∧ failT.ev1 = failS.ev1 ∧ failT.ev2 = failS.ev2 ∧
     failT.trace = failS.trace ∧ failT.dashRecvd = failS.dashRecvd ∧
     (failT.apc = APc.done ∨ failT.dpc = DPc.done)) :=
  ⟨FStep.aSendFail failS rfl, C7_failure_preserves failS failT (FStep.aSendFail failS rfl)⟩

/-- Claim C8: `main` (source lines 44-45) binds the agent handler to a server
accepting connections on all network interfaces at port 12691, and the
dashboard handler to a server accepting connections on the loopback interface
only at port 12345. -/
theorem C8_bindings :
    mainServers =
      [⟨Role.agent, allInterfaces, 12691⟩, ⟨Role.dashboard, loopback, 12345⟩] := rfl

/-- Claim C9: every payload the agent handler sends on the agent transport is
one previously received from the dashboard transport in the same run, and is
never the literal "exit"; consequently the initial mailbox value "global" is
never delivered to the agent unless the dashboard itself sent "global". -/
theorem C9_agent_only_dashboard_payloads (d a : List String) (s : St)
    (h : Reachable d a s) :
    (∀ q, Ev.toAgent q ∈ s.trace → q ∈ s.dashRecvd ∧ q ≠ "exit") ∧
    ("global" ∉ s.dashRecvd → Ev.toAgent "global" ∉ s.trace) := by
  obtain ⟨b1, b2, b3, b4⟩ := inv9_reachable h
  refine ⟨b4, ?_⟩
  intro hglob hmem
  exact hglob (b4 "global" hmem).1

theorem C9_witness :
    (∀ q, Ev.toAgent q ∈ (⟨"hi", false, false, APc.recv, DPc.waitReply,
        ["exit"], ["ok"], ["hi"], [Ev.toAgent "hi"]⟩ : St).trace →
      q ∈ (⟨"hi", false, false, APc.recv, DPc.waitReply,
        ["exit"], ["ok"], ["hi"], [Ev.toAgent "hi"]⟩ : St).dashRecvd ∧ q ≠ "exit") ∧
    ("global" ∉ (⟨"hi", false, false, APc.recv, DPc.waitReply,
        ["exit"], ["ok"], ["hi"], [Ev.toAgent "hi"]⟩ : St).dashRecvd →
      Ev.toAgent "global" ∉ (⟨"hi", false, false, APc.recv, DPc.waitReply,
        ["exit"], ["ok"], ["hi"], [Ev.toAgent "hi"]⟩ : St).trace) :=
  C9_agent_only_dashboard_payloads ["hi", "exit"] ["ok"] _
    (Reachable.step
      (Reachable.step
        (Reachable.step
          (Reachable.step Reachable.init
            (Or.inl (Or.inr (DStep.recvGo _ "hi" ["exit"] rfl rfl (by decide)))))
          (Or.inl (Or.inr (DStep.setTurn _ rfl))))
        (Or.inl (Or.inl (AStep.waitTurn _ rfl rfl))))
      (Or.inl (Or.inl (AStep.send _ rfl))))

/-- Claim C10: when the dashboard session terminates via the "exit" sentinel,
the terminal state of the completed run has the mailbox holding the literal
"exit" and both signals unset; the shared state is not reset to its initial
values on termination (the mailbox differs from the initial "global"). -/
theorem C10_final_state (reqs reps : List String) (hex : "exit" ∉ reqs)
    (hlen : reps.length = reqs.length) :
    ∃ F, SReach (initSt (reqs ++ ["exit"]) reps) F ∧ stepFn F = none ∧
      F.mailbox = "exit" ∧ F.ev1 = false ∧ F.ev2 = false ∧
      F.mailbox ≠ (initSt (reqs ++ ["exit"]) reps).mailbox := by
  refine ⟨_, run_from_init reqs reps hex hlen, stepFn_final _ _ _, rfl, rfl, rfl, ?_⟩
  show ("exit" : String) ≠ "global"
  decide

theorem C10_witness :
    ("exit" ∉ (["req"] : List String)) ∧
    ((["rep"] : List String).length = (["req"] : List String).length) ∧
    (∃ F, SReach (initSt (["req"] ++ ["exit"]) ["rep"]) F ∧ stepFn F = none ∧
      F.mailbox = "exit" ∧ F.ev1 = false ∧ F.ev2 = false ∧
      F.mailbox ≠ (initSt (["req"] ++ ["exit"]) ["rep"]).mailbox) :=
  ⟨by decide, by decide, C10_final_state ["req"] ["rep"] (by decide) (by decide)⟩
